import Mathlib

/-
Verification development for the anonymous_board forum application
(src/app.py).  The two database tables are modelled as Lean lists, SQL
statements as list operations, and every request handler as a pure
function from the database state (plus the request data) to a response
and the successor state.  Python string primitives (`strip`, `split`,
`lower`) and SQL `ILIKE` are modelled by structurally recursive
functions over character lists.
-/

namespace Board

/-- A row of the `threads` table created by `init_db` in src/app.py. -/
structure Thread where
  id : Nat
  title : String
  content : String
  created_at : Nat
  upvotes : Nat
  downvotes : Nat
  tags : String
  deriving DecidableEq, Repr

/-- A row of the `comments` table created by `init_db` in src/app.py. -/
structure Comment where
  id : Nat
  thread_id : Nat
  content : String
  created_at : Nat
  upvotes : Nat
  downvotes : Nat
  deriving DecidableEq, Repr

/-- The whole store: both tables plus the next `SERIAL` value of each. -/
structure DB where
  threads : List Thread
  comments : List Comment
  nextThreadId : Nat
  nextCommentId : Nat
  deriving DecidableEq, Repr

/-- The observable part of a Flask response relevant to the handlers. -/
inductive Response where
  | page
  | redirect (loc : String)
  | clientError (status : Nat) (msg : String)
  | serverError (status : Nat)
  deriving DecidableEq, Repr

/-- Data handed to the `index.html` template by the listing handlers. -/
structure Listing where
  threads : List Thread
  popular_threads : List Thread
  trending_tags : List String
  page : Nat
  total_pages : Nat
  deriving DecidableEq, Repr

/-- Error raised by the store, surfaced to Flask as an exception. -/
inductive DBError where
  | foreignKeyViolation
  deriving DecidableEq, Repr

/-- Maximal runs of non-whitespace characters, i.e. Python
`text.strip().split()` with no separator argument.  The accumulator
holds the current run reversed. -/
def splitWs : List Char → List Char → List (List Char)
  | [], [] => []
  | [], acc => [acc.reverse]
  | c :: cs, acc =>
    if c.isWhitespace then
      (if acc = [] then splitWs cs [] else acc.reverse :: splitWs cs [])
    else splitWs cs (c :: acc)

/-- `count_words` from src/app.py: `len(text.strip().split())`. -/
def count_words (text : String) : Nat := (splitWs text.data []).length

/-- `MAX_THREAD_WORDS` from src/app.py. -/
def MAX_THREAD_WORDS : Nat := 500

/-- `MAX_COMMENT_WORDS` from src/app.py. -/
def MAX_COMMENT_WORDS : Nat := 150

/-- Python `str.strip()` over a character list. -/
def stripChars (cs : List Char) : List Char :=
  ((cs.dropWhile Char.isWhitespace).reverse.dropWhile Char.isWhitespace).reverse

/-- Python `str.strip()` on strings. -/
def pyStrip (s : String) : String := ⟨stripChars s.data⟩

/-- Python `str.lower()` over a character list (ASCII case folding, as
both Python and the store's `ILIKE` use on the app's ASCII tags). -/
def lowerChars (cs : List Char) : List Char := cs.map Char.toLower

/-- Python `str.split(',')`: the segments between commas, empty segments
kept. -/
def splitComma : List Char → List Char → List (List Char)
  | [], acc => [acc.reverse]
  | c :: cs, acc =>
    if c = ',' then acc.reverse :: splitComma cs [] else splitComma cs (c :: acc)

/-- SQL `ORDER BY id DESC` on the threads table, modelled by a stable
sort (ids are unique, so any sort returns the same rows). -/
def sortByIdDesc (ts : List Thread) : List Thread :=
  ts.insertionSort fun a b => b.id ≤ a.id

/-- The fixed `per_page = 5` of every listing handler. -/
def per_page : Nat := 5

/-- `math.ceil(total_threads / per_page)` of the listing handlers. -/
def total_pages_of (total_threads : Nat) : Nat :=
  (total_threads + per_page - 1) / per_page

/-- `get_popular_threads` from src/app.py:
`ORDER BY (upvotes - downvotes) DESC LIMIT limit`.  The store leaves the
tie order unspecified; the model resolves ties by stored row order. -/
def get_popular_threads (db : DB) (limit : Nat) : List Thread :=
  (db.threads.insertionSort fun a b =>
    ((b.upvotes : Int) - (b.downvotes : Int)) ≤ ((a.upvotes : Int) - (a.downvotes : Int))).take limit

/-- Rows returned by `SELECT tags FROM threads WHERE tags != ''`. -/
def trendingRows (db : DB) : List String :=
  (db.threads.filter fun t => t.tags ≠ "").map fun t => t.tags

/-- One loop entry of `get_trending_tags`: `tag.strip().lower()`. -/
def normTag (cs : List Char) : List Char := lowerChars (stripChars cs)

/-- The normalised non-empty tag entries of one `tags` field: split on
commas, strip and lower-case each entry, drop empties. -/
def normTags (row : String) : List String :=
  (((splitComma row.data []).map normTag).filter fun cs => cs ≠ []).map fun cs => ⟨cs⟩

/-- `tag_count[tag] = tag_count.get(tag, 0) + 1` on an insertion-ordered
association list, the model of a Python dict. -/
def bumpTag : List (String × Nat) → String → List (String × Nat)
  | [], tag => [(tag, 1)]
  | (t, n) :: rest, tag =>
    if t = tag then (t, n + 1) :: rest else (t, n) :: bumpTag rest tag

/-- The `tag_count` dictionary after scanning all rows. -/
def tallyRows (rows : List String) : List (String × Nat) :=
  rows.foldl (fun acc row => (normTags row).foldl bumpTag acc) []

/-- Comparison modelling Python
`sorted(tag_count.items(), key=lambda x: x[1], reverse=True)`, which is
a stable descending sort on the count. -/
def leCnt (a b : String × Nat) : Prop := b.2 ≤ a.2

instance : DecidableRel leCnt :=
  fun a b => inferInstanceAs (Decidable (b.2 ≤ a.2))

/-- `get_trending_tags` from src/app.py. -/
def get_trending_tags (db : DB) (limit : Nat) : List String :=
  (((tallyRows (trendingRows db)).insertionSort leCnt).take limit).map fun x => x.1

/-- GET `/` (`index` in src/app.py): the paginated home thread listing. -/
def index (db : DB) (page : Nat) : Listing :=
  let offset := (page - 1) * per_page
  let total_threads := db.threads.length
  let total_pages := total_pages_of total_threads
  let threads := ((sortByIdDesc db.threads).drop offset).take per_page
  { threads := threads
    popular_threads := get_popular_threads db 5
    trending_tags := get_trending_tags db 10
    page := page
    total_pages := total_pages }

/-- The 400 body of `new_thread`:
`f"Thread too long! Max {MAX_THREAD_WORDS} words."`. -/
def thread_too_long_msg : String :=
  "Thread too long! Max " ++ toString MAX_THREAD_WORDS ++ " words."

/-- The 400 body of `thread_detail`:
`f"Comment too long! Max {MAX_COMMENT_WORDS} words."`. -/
def comment_too_long_msg : String :=
  "Comment too long! Max " ++ toString MAX_COMMENT_WORDS ++ " words."

/-- POST `/new` (`new_thread` in src/app.py). -/
def new_thread (db : DB) (title content tags : String) (now : Nat) : Response × DB :=
  if count_words content > MAX_THREAD_WORDS then
    (Response.clientError 400 thread_too_long_msg, db)
  else
    (Response.redirect "/",
     { db with
       threads := db.threads ++
         [{ id := db.nextThreadId, title := title, content := content,
            created_at := now, upvotes := 0, downvotes := 0, tags := tags }]
       nextThreadId := db.nextThreadId + 1 })

/-- `INSERT INTO comments ...`, guarded only by the
`REFERENCES threads(id)` constraint of the schema. -/
def insertComment (db : DB) (tid : Nat) (content : String) (now : Nat) : Except DBError DB :=
  if db.threads.any fun t => t.id = tid then
    Except.ok
      { db with
        comments := db.comments ++
          [{ id := db.nextCommentId, thread_id := tid, content := content,
             created_at := now, upvotes := 0, downvotes := 0 }]
        nextCommentId := db.nextCommentId + 1 }
  else Except.error DBError.foreignKeyViolation

/-- POST `/thread/<thread_id>` (`thread_detail` in src/app.py).  A
referential-integrity error raised by the insert propagates out of the
handler and Flask turns it into a 500. -/
def thread_detail_post (db : DB) (thread_id : Nat) (content : String) (now : Nat) :
    Response × DB :=
  if count_words content > MAX_COMMENT_WORDS then
    (Response.clientError 400 comment_too_long_msg, db)
  else
    match insertComment db thread_id content now with
    | Except.ok db2 => (Response.page, db2)
    | Except.error _ => (Response.serverError 500, db)

/-- `request.referrer or '/'`: Python `or` falls through on `None` and
on the empty string. -/
def refOr : Option String → String
  | some r => if r = "" then "/" else r
  | none => "/"

/-- GET `/upvote/<thread_id>` (`upvote` in src/app.py). -/
def upvote (db : DB) (thread_id : Nat) (referrer : Option String) : Response × DB :=
  (Response.redirect (refOr referrer),
   { db with threads := db.threads.map fun t =>
       if t.id = thread_id then { t with upvotes := t.upvotes + 1 } else t })

/-- GET `/downvote/<thread_id>` (`downvote` in src/app.py). -/
def downvote (db : DB) (thread_id : Nat) (referrer : Option String) : Response × DB :=
  (Response.redirect (refOr referrer),
   { db with threads := db.threads.map fun t =>
       if t.id = thread_id then { t with downvotes := t.downvotes + 1 } else t })

/-- GET `/comment/upvote/<comment_id>` (`comment_upvote` in src/app.py). -/
def comment_upvote (db : DB) (comment_id : Nat) (referrer : Option String) : Response × DB :=
  (Response.redirect (refOr referrer),
   { db with comments := db.comments.map fun c =>
       if c.id = comment_id then { c with upvotes := c.upvotes + 1 } else c })

/-- GET `/comment/downvote/<comment_id>` (`comment_downvote` in src/app.py). -/
def comment_downvote (db : DB) (comment_id : Nat) (referrer : Option String) : Response × DB :=
  (Response.redirect (refOr referrer),
   { db with comments := db.comments.map fun c =>
       if c.id = comment_id then { c with downvotes := c.downvotes + 1 } else c })

/-- Disjunction of `f` over every suffix of the list (the list itself
included, the empty suffix included). -/
def anySuffix (f : List Char → Bool) : List Char → Bool
  | [] => f []
  | c :: cs => f (c :: cs) || anySuffix f cs

/-- SQL `LIKE` over character lists: `%` matches any sequence, `_` any
single character, a backslash escapes the following pattern character.
A pattern ending in a lone backslash is an error in the store; the
model makes it match nothing. -/
def likeMatch : List Char → List Char → Bool
  | [], cs => cs.isEmpty
  | p :: ps, cs =>
    if p = '%' then anySuffix (likeMatch ps) cs
    else if p = '_' then
      (match cs with
       | [] => false
       | _ :: cs2 => likeMatch ps cs2)
    else if p = '\\' then
      (match ps with
       | [] => false
       | e :: ps2 =>
         match cs with
         | [] => false
         | c :: cs2 => e = c && likeMatch ps2 cs2)
    else
      (match cs with
       | [] => false
       | c :: cs2 => p = c && likeMatch ps cs2)

/-- SQL `ILIKE`: case-insensitive `LIKE`, both sides lower-cased. -/
def ilike (text pattern : String) : Bool :=
  likeMatch (lowerChars pattern.data) (lowerChars text.data)

/-- GET `/tag/<tag>` (`tag_filter` in src/app.py):
`WHERE tags ILIKE '%' + tag + '%'`, ordered by descending id, paginated
like the home listing. -/
def tag_filter (db : DB) (tag : String) (page : Nat) : Listing :=
  let offset := (page - 1) * per_page
  let pat := "%" ++ tag ++ "%"
  let matching := db.threads.filter fun t => ilike t.tags pat
  let total_pages := total_pages_of matching.length
  { threads := ((sortByIdDesc matching).drop offset).take per_page
    popular_threads := get_popular_threads db 5
    trending_tags := get_trending_tags db 10
    page := page
    total_pages := total_pages }

/-- GET `/search` (`search` in src/app.py): the query is stripped, then
matched with `ILIKE '%query%'` against title, content and tags. -/
def search (db : DB) (q : String) (page : Nat) : Listing :=
  let query := pyStrip q
  let offset := (page - 1) * per_page
  let pat := "%" ++ query ++ "%"
  let matching := db.threads.filter fun t =>
    ilike t.title pat || ilike t.content pat || ilike t.tags pat
  let total_pages := total_pages_of matching.length
  { threads := ((sortByIdDesc matching).drop offset).take per_page
    popular_threads := get_popular_threads db 5
    trending_tags := get_trending_tags db 10
    page := page
    total_pages := total_pages }

/-- Specification-side predicate: the needle is a leading run of the
hay, character for character. -/
def leadsWith : List Char → List Char → Bool
  | [], _ => true
  | _ :: _, [] => false
  | a :: as, b :: bs => a = b && leadsWith as bs

/-- Specification-side predicate: the needle occurs contiguously
somewhere inside the hay (a literal substring). -/
def occursIn (needle : List Char) : List Char → Bool
  | [] => leadsWith needle []
  | b :: t => leadsWith needle (b :: t) || occursIn needle t

/-- Specification-side predicate: case-insensitive literal substring
containment between strings. -/
def containsCI (hay needle : String) : Bool :=
  occursIn (lowerChars needle.data) (lowerChars hay.data)

/-- The count a tag holds in an association list, 0 when absent. -/
def cntOf : List (String × Nat) → String → Nat
  | [], _ => 0
  | (t, n) :: rest, s => if t = s then n else cntOf rest s

/-- The keys of an association list, in stored order. -/
def keysOf (acc : List (String × Nat)) : List String := acc.map fun x => x.1

/-- An empty store, as right after `init_db`. -/
def db0 : DB := { threads := [], comments := [], nextThreadId := 1, nextCommentId := 1 }

/-- A minimal thread row used by the concrete test stores. -/
def mkThread (i : Nat) (tg : String) : Thread :=
  { id := i, title := "t", content := "c", created_at := 0,
    upvotes := 0, downvotes := 0, tags := tg }

/-- Store with seven untagged threads, ids 1..7. -/
def db7 : DB :=
  { threads := (List.range 7).map fun i => mkThread (i + 1) ""
    comments := [], nextThreadId := 8, nextCommentId := 1 }

/-- Store with two threads tagged `"Go, rust"` and `"rust, GO"`. -/
def dbGoRust : DB :=
  { threads := [mkThread 1 "Go, rust", mkThread 2 "rust, GO"]
    comments := [], nextThreadId := 3, nextCommentId := 1 }

/-- First thread of the voting fixture store. -/
def tVote1 : Thread :=
  { id := 1, title := "a", content := "b", created_at := 0,
    upvotes := 3, downvotes := 4, tags := "x" }

/-- First comment of the voting fixture store. -/
def cVote1 : Comment :=
  { id := 1, thread_id := 1, content := "c", created_at := 0,
    upvotes := 5, downvotes := 6 }

/-- Store with two threads and two comments carrying non-zero vote
counters, for the voting claims. -/
def dbVote : DB :=
  { threads := [tVote1,
                { id := 2, title := "a2", content := "b2", created_at := 0,
                  upvotes := 7, downvotes := 1, tags := "" }]
    comments := [cVote1,
                 { id := 2, thread_id := 1, content := "c2", created_at := 0,
                   upvotes := 0, downvotes := 2 }]
    nextThreadId := 3, nextCommentId := 3 }

/-- Store with a single thread tagged `"category"`. -/
def dbCat : DB :=
  { threads := [mkThread 1 "category"], comments := []
    nextThreadId := 2, nextCommentId := 1 }

/-- Store with a single thread tagged `"abc"`. -/
def dbTagAbc : DB :=
  { threads := [mkThread 1 "abc"], comments := []
    nextThreadId := 2, nextCommentId := 1 }

/-- Store with a single thread whose title, content and tags are
`"abc"`, `"def"` and `"ghi"`. -/
def dbQ : DB :=
  { threads := [{ id := 1, title := "abc", content := "def", created_at := 0,
                  upvotes := 0, downvotes := 0, tags := "ghi" }]
    comments := [], nextThreadId := 2, nextCommentId := 1 }

/-- A 150-word string. -/
def w150 : String := ⟨(List.replicate 150 'w').intersperse ' '⟩

/-- A 151-word string. -/
def w151 : String := ⟨(List.replicate 151 'w').intersperse ' '⟩

/-- A 500-word string. -/
def w500 : String := ⟨(List.replicate 500 'w').intersperse ' '⟩

/-- A 501-word string. -/
def w501 : String := ⟨(List.replicate 501 'w').intersperse ' '⟩

set_option maxRecDepth 100000

/-! ### Arithmetic helpers for the `math.ceil` page count -/

theorem total_pages_of_ge (T : Nat) : T ≤ 5 * total_pages_of T := by
  simp only [total_pages_of, per_page]
  omega

theorem total_pages_of_min (T m : Nat) (h : T ≤ 5 * m) : total_pages_of T ≤ m := by
  simp only [total_pages_of, per_page]
  omega

/-! ### List helpers for the `UPDATE ... WHERE id = x` statements -/

theorem map_update_id {α : Type} (key : α → Nat) (f : α → α) (v : Nat) (l : List α)
    (h : ∀ x ∈ l, key x ≠ v) :
    (l.map fun x => if key x = v then f x else x) = l := by
  have h1 : (l.map fun x => if key x = v then f x else x) = l.map fun x => x :=
    List.map_congr_left fun x hx => if_neg (h x hx)
  rw [h1, List.map_id']

theorem update_by_key {α : Type} (key : α → Nat) (f : α → α) (l : List α) (a : α)
    (hnd : (l.map key).Nodup) (ha : a ∈ l) :
    ∃ l1 l2, l = l1 ++ a :: l2 ∧
      (l.map fun x => if key x = key a then f x else x) = l1 ++ f a :: l2 := by
  obtain ⟨l1, l2, rfl⟩ := List.append_of_mem ha
  refine ⟨l1, l2, rfl, ?_⟩
  rw [List.map_append, List.map_cons] at hnd
  obtain ⟨hn1, hn2, hdisj⟩ := List.nodup_append.mp hnd
  have h1 : ∀ x ∈ l1, key x ≠ key a := by
    intro x hx heq
    exact hdisj (List.mem_map_of_mem key hx) (heq ▸ List.mem_cons_self (key a) _)
  have h2 : ∀ x ∈ l2, key x ≠ key a := by
    intro x hx heq
    exact (List.nodup_cons.mp hn2).1 (heq ▸ List.mem_map_of_mem key hx)
  rw [List.map_append, List.map_cons, if_pos rfl,
    map_update_id key f (key a) l1 h1, map_update_id key f (key a) l2 h2]

/-! ### Claim C1: home pagination -/

theorem pages_cover {α : Type} :
    ∀ (k : Nat) (l : List α), l.length ≤ 5 * k →
      ((List.range k).flatMap fun i => (l.drop (i * 5)).take 5) = l := by
  intro k
  induction k with
  | zero =>
    intro l hl
    have hnil : l = [] := List.eq_nil_of_length_eq_zero (by omega)
    simp [hnil]
  | succ k ih =>
    intro l hl
    rw [List.range_succ_eq_map, List.flatMap_cons, List.flatMap_map]
    have hstep : (fun i => (l.drop (Nat.succ i * 5)).take 5)
        = fun i => (((l.drop 5).drop (i * 5)).take 5) := by
      funext i
      rw [List.drop_drop]
      congr 2
      omega
    rw [hstep, ih (l.drop 5) (by simp only [List.length_drop]; omega)]
    simp only [Nat.zero_mul, List.drop_zero]
    exact List.take_append_drop 5 l

/-- C1: the home listing returns exactly positions `(p-1)*5 ..
(p-1)*5+4` of the threads sorted by descending id, reports the page
count as the ceiling of the thread count over 5, returns an empty page
beyond the last, and the pages together carry exactly the ids of all
threads. -/
theorem C1_home_pagination (db : DB) (p : Nat) (hp : 1 ≤ p) :
    (index db p).threads = ((sortByIdDesc db.threads).drop ((p - 1) * 5)).take 5 ∧
    List.Pairwise (fun a b : Thread => b.id ≤ a.id) (sortByIdDesc db.threads) ∧
    (sortByIdDesc db.threads).Perm db.threads ∧
    (index db p).total_pages = total_pages_of db.threads.length ∧
    db.threads.length ≤ 5 * (index db p).total_pages ∧
    (∀ m : Nat, db.threads.length ≤ 5 * m → (index db p).total_pages ≤ m) ∧
    ((index db p).total_pages < p → (index db p).threads = []) ∧
    (∀ x : Nat,
      x ∈ (List.range (index db p).total_pages).flatMap
          (fun i => (index db (i + 1)).threads.map Thread.id) ↔
        x ∈ db.threads.map Thread.id) := by
  refine ⟨rfl, ?_, List.perm_insertionSort _ _, rfl, total_pages_of_ge _,
    fun m hm => total_pages_of_min _ m hm, ?_, ?_⟩
  · haveI : IsTotal Thread fun a b => b.id ≤ a.id := ⟨fun a b => Nat.le_total b.id a.id⟩
    haveI : IsTrans Thread fun a b => b.id ≤ a.id := ⟨fun _ _ _ hab hbc => Nat.le_trans hbc hab⟩
    exact List.sorted_insertionSort _ db.threads
  · intro h
    have h5 := total_pages_of_ge db.threads.length
    have hlt : total_pages_of db.threads.length < p := h
    show ((sortByIdDesc db.threads).drop ((p - 1) * 5)).take 5 = []
    have hdrop : (sortByIdDesc db.threads).drop ((p - 1) * 5) = [] := by
      apply List.drop_eq_nil_of_le
      rw [sortByIdDesc, List.length_insertionSort]
      omega
    rw [hdrop, List.take_nil]
  · intro x
    have hcover :
        ((List.range (total_pages_of db.threads.length)).flatMap
          fun i => ((sortByIdDesc db.threads).drop (i * 5)).take 5) = sortByIdDesc db.threads := by
      apply pages_cover
      rw [sortByIdDesc, List.length_insertionSort]
      exact total_pages_of_ge _
    show x ∈ (List.range (total_pages_of db.threads.length)).flatMap
        (fun i => (((sortByIdDesc db.threads).drop (i * 5)).take 5).map Thread.id) ↔
      x ∈ db.threads.map Thread.id
    rw [← List.map_flatMap, hcover]
    exact ((List.perm_insertionSort _ db.threads).map Thread.id).mem_iff

/-- C1 witness: the seven-thread store has two pages; page 3 lies
beyond the last page and is empty. -/
theorem C1_home_pagination_witness :
    1 ≤ 3 ∧ (index db7 3).total_pages < 3 ∧ (index db7 3).threads = [] :=
  ⟨by decide, by decide, (C1_home_pagination db7 3 (by decide)).2.2.2.2.2.2.1 (by decide)⟩

/-! ### Claims C3 and C4: the word limits -/

/-- C3: thread creation succeeds for content of at most 500 whitespace
words, inserting exactly the submitted row; for 501 or more words it
returns a 400 whose message names the limit 500 and no row is
inserted. -/
theorem C3_thread_word_limit (db : DB) (title content tags : String) (now : Nat) :
    (count_words content ≤ MAX_THREAD_WORDS →
      new_thread db title content tags now =
        (Response.redirect "/",
         { db with
           threads := db.threads ++
             [{ id := db.nextThreadId, title := title, content := content,
                created_at := now, upvotes := 0, downvotes := 0, tags := tags }]
           nextThreadId := db.nextThreadId + 1 })) ∧
    (MAX_THREAD_WORDS + 1 ≤ count_words content →
      new_thread db title content tags now = (Response.clientError 400 thread_too_long_msg, db) ∧
      occursIn "500".data thread_too_long_msg.data = true) := by
  constructor
  · intro h
    simp only [new_thread]
    rw [if_neg (by omega)]
  · intro h
    refine ⟨?_, by decide⟩
    simp only [new_thread]
    rw [if_pos (by omega)]

/-- C3 witness: a concrete 500-word content is inserted, a concrete
501-word content is rejected with the 400 message and no insertion. -/
theorem C3_thread_word_limit_witness :
    count_words w500 ≤ MAX_THREAD_WORDS ∧ MAX_THREAD_WORDS + 1 ≤ count_words w501 ∧
    new_thread db0 "t" w500 "" 0 =
      (Response.redirect "/",
       { db0 with
         threads := db0.threads ++
           [{ id := db0.nextThreadId, title := "t", content := w500,
              created_at := 0, upvotes := 0, downvotes := 0, tags := "" }]
         nextThreadId := db0.nextThreadId + 1 }) ∧
    new_thread db0 "t" w501 "" 0 = (Response.clientError 400 thread_too_long_msg, db0) :=
  ⟨by decide, by decide, (C3_thread_word_limit db0 "t" w500 "" 0).1 (by decide),
   ((C3_thread_word_limit db0 "t" w501 "" 0).2 (by decide)).1⟩

/-- C4: comment creation succeeds for at most 150 words when the thread
exists; 151 or more words yields a 400 naming 150 with no row inserted;
a missing thread makes the insert raise a referential-integrity error
surfaced as a failing (500) response, with no write. -/
theorem C4_comment_word_limit_fk (db : DB) (tid : Nat) (content : String) (now : Nat) :
    (count_words content ≤ MAX_COMMENT_WORDS → (∃ t ∈ db.threads, t.id = tid) →
      thread_detail_post db tid content now =
        (Response.page,
         { db with
           comments := db.comments ++
             [{ id := db.nextCommentId, thread_id := tid, content := content,
                created_at := now, upvotes := 0, downvotes := 0 }]
           nextCommentId := db.nextCommentId + 1 })) ∧
    (MAX_COMMENT_WORDS + 1 ≤ count_words content →
      thread_detail_post db tid content now =
        (Response.clientError 400 comment_too_long_msg, db) ∧
      occursIn "150".data comment_too_long_msg.data = true) ∧
    (count_words content ≤ MAX_COMMENT_WORDS → (∀ t ∈ db.threads, t.id ≠ tid) →
      thread_detail_post db tid content now = (Response.serverError 500, db)) := by
  refine ⟨?_, ?_, ?_⟩
  · rintro h ⟨t, ht, rfl⟩
    simp only [thread_detail_post, insertComment]
    rw [if_neg (by omega), if_pos (List.any_eq_true.mpr ⟨t, ht, by simp⟩)]
  · intro h
    refine ⟨?_, by decide⟩
    simp only [thread_detail_post]
    rw [if_pos (by omega)]
  · intro h hnone
    simp only [thread_detail_post, insertComment]
    rw [if_neg (by omega), if_neg ?_]
    simp only [List.any_eq_true, not_exists, not_and]
    intro t ht
    simp [hnone t ht]

/-- C4 witness: on a store with exactly thread id 1, a 150-word comment
on thread 1 is inserted, a 151-word comment is rejected with the 400
message, and a comment on missing thread 2 yields the surfaced
referential failure with no write. -/
theorem C4_comment_word_limit_fk_witness :
    count_words w150 ≤ MAX_COMMENT_WORDS ∧ MAX_COMMENT_WORDS + 1 ≤ count_words w151 ∧
    thread_detail_post dbCat 1 w150 9 =
      (Response.page,
       { dbCat with
         comments := dbCat.comments ++
           [{ id := dbCat.nextCommentId, thread_id := 1, content := w150,
              created_at := 9, upvotes := 0, downvotes := 0 }]
         nextCommentId := dbCat.nextCommentId + 1 }) ∧
    thread_detail_post dbCat 1 w151 9 = (Response.clientError 400 comment_too_long_msg, dbCat) ∧
    thread_detail_post dbCat 2 w150 9 = (Response.serverError 500, dbCat) :=
  ⟨by decide, by decide,
   (C4_comment_word_limit_fk dbCat 1 w150 9).1 (by decide) ⟨mkThread 1 "category", by decide, by decide⟩,
   ((C4_comment_word_limit_fk dbCat 1 w151 9).2.1 (by decide)).1,
   (C4_comment_word_limit_fk dbCat 2 w150 9).2.2 (by decide) (by decide)⟩

/-! ### Claim C2: trending tags -/

theorem cntOf_bumpTag (acc : List (String × Nat)) (t s : String) :
    cntOf (bumpTag acc t) s = cntOf acc s + (if t = s then 1 else 0) := by
  induction acc with
  | nil => simp [bumpTag, cntOf]
  | cons hd tl ih =>
    obtain ⟨a, n⟩ := hd
    by_cases hat : a = t
    · subst hat
      by_cases has : a = s
      · subst has
        simp [bumpTag, cntOf]
      · simp [bumpTag, cntOf, has]
    · by_cases has : a = s
      · subst has
        have hts : t ≠ a := fun h => hat h.symm
        simp [bumpTag, cntOf, hat, hts]
      · simp [bumpTag, cntOf, hat, has, ih]

theorem cntOf_foldl (tags : List String) :
    ∀ (acc : List (String × Nat)) (s : String),
      cntOf (tags.foldl bumpTag acc) s = cntOf acc s + tags.count s := by
  induction tags with
  | nil => intro acc s; simp
  | cons t ts ih =>
    intro acc s
    rw [List.foldl_cons, ih, cntOf_bumpTag, List.count_cons]
    by_cases h : t = s
    · simp [h]
      omega
    · simp [h]

theorem cntOf_tallyRows (rows : List String) (s : String) :
    cntOf (tallyRows rows) s = ((rows.flatMap normTags)).count s := by
  suffices h : ∀ acc,
      cntOf (rows.foldl (fun acc row => (normTags row).foldl bumpTag acc) acc) s
        = cntOf acc s + (rows.flatMap normTags).count s by
    simpa [tallyRows, cntOf] using h []
  induction rows with
  | nil => intro acc; simp
  | cons r rs ih =>
    intro acc
    rw [List.foldl_cons, ih, cntOf_foldl, List.flatMap_cons, List.count_append]
    omega

theorem keysOf_bumpTag (acc : List (String × Nat)) (t : String) :
    keysOf (bumpTag acc t) =
      if t ∈ keysOf acc then keysOf acc else keysOf acc ++ [t] := by
  induction acc with
  | nil => simp [bumpTag, keysOf]
  | cons hd tl ih =>
    obtain ⟨a, n⟩ := hd
    by_cases hat : a = t
    · subst hat
      simp [bumpTag, keysOf, List.mem_cons]
    · have hta : t ≠ a := fun h => hat h.symm
      have hb : bumpTag ((a, n) :: tl) t = (a, n) :: bumpTag tl t := by
        simp [bumpTag, hat]
      rw [hb, show keysOf ((a, n) :: bumpTag tl t) = a :: keysOf (bumpTag tl t) from rfl, ih,
        show keysOf ((a, n) :: tl) = a :: keysOf tl from rfl]
      by_cases hmem : t ∈ keysOf tl
      · simp [hmem, List.mem_cons]
      · simp [hmem, List.mem_cons, hta]

theorem keys_nodup_bump (acc : List (String × Nat)) (t : String)
    (h : (keysOf acc).Nodup) : (keysOf (bumpTag acc t)).Nodup := by
  rw [keysOf_bumpTag]
  split
  · exact h
  · rename_i hmem
    refine List.nodup_append.mpr ⟨h, List.nodup_singleton t, ?_⟩
    intro a ha hb
    simp only [List.mem_singleton] at hb
    subst hb
    exact hmem ha

theorem keys_nodup_foldl (tags : List String) :
    ∀ acc, (keysOf acc).Nodup → (keysOf (tags.foldl bumpTag acc)).Nodup := by
  induction tags with
  | nil => intro acc h; exact h
  | cons t ts ih => intro acc h; exact ih _ (keys_nodup_bump acc t h)

theorem keys_nodup_tally (rows : List String) : (keysOf (tallyRows rows)).Nodup := by
  suffices h : ∀ acc, (keysOf acc).Nodup →
      (keysOf (rows.foldl (fun acc row => (normTags row).foldl bumpTag acc) acc)).Nodup by
    exact h [] (by simp [keysOf])
  induction rows with
  | nil => intro acc h; exact h
  | cons r rs ih => intro acc h; exact ih _ (keys_nodup_foldl _ acc h)

theorem cntOf_of_mem (acc : List (String × Nat)) (hnd : (keysOf acc).Nodup)
    (s : String) (n : Nat) (hm : (s, n) ∈ acc) : cntOf acc s = n := by
  induction acc with
  | nil => simp at hm
  | cons hd tl ih =>
    obtain ⟨a, m⟩ := hd
    rw [List.mem_cons] at hm
    rw [show keysOf ((a, m) :: tl) = a :: keysOf tl from rfl, List.nodup_cons] at hnd
    rcases hm with heq | hmem
    · cases heq
      simp [cntOf]
    · have has : a ≠ s := by
        intro h
        subst h
        exact hnd.1 (List.mem_map_of_mem (fun x => x.1) hmem)
      simp only [cntOf, if_neg has]
      exact ih hnd.2 hmem

theorem tally_filter_noop (l : List Thread) :
    tallyRows ((l.filter fun t => t.tags ≠ "").map fun t => t.tags)
      = tallyRows (l.map fun t => t.tags) := by
  suffices h : ∀ acc,
      (((l.filter fun t => t.tags ≠ "").map fun t => t.tags).foldl
        (fun acc row => (normTags row).foldl bumpTag acc) acc)
        = ((l.map fun t => t.tags).foldl
          (fun acc row => (normTags row).foldl bumpTag acc) acc) by
    exact h []
  induction l with
  | nil => intro acc; rfl
  | cons t l ih =>
    intro acc
    by_cases htg : t.tags = ""
    · have hf : (t :: l).filter (fun t => t.tags ≠ "") = l.filter fun t => t.tags ≠ "" := by
        simp [List.filter_cons, htg]
      rw [hf, ih, List.map_cons, List.foldl_cons, htg]
      rfl
    · have hf : (t :: l).filter (fun t => t.tags ≠ "") =
          t :: (l.filter fun t => t.tags ≠ "") := by
        simp [List.filter_cons, htg]
      rw [hf, List.map_cons, List.map_cons, List.foldl_cons, List.foldl_cons, ih]

/-- C2: trending tags considers exactly the threads with non-empty tags
(the rows the SQL filter drops contribute nothing), tallies per-thread
comma-split, stripped, lower-cased, non-empty entries, and returns at
most 10 tag names in descending count order; the sort is stable (ties
keep first-encounter order), and the documented two-thread example
evaluates to `["go", "rust"]`. -/
theorem C2_trending_tags (db : DB) :
    tallyRows (trendingRows db) = tallyRows (db.threads.map fun t => t.tags) ∧
    (∀ s : String,
      cntOf (tallyRows (trendingRows db)) s = ((trendingRows db).flatMap normTags).count s) ∧
    (get_trending_tags db 10).length ≤ 10 ∧
    List.Pairwise
      (fun a b => cntOf (tallyRows (trendingRows db)) b ≤ cntOf (tallyRows (trendingRows db)) a)
      (get_trending_tags db 10) ∧
    (∀ a b : String × Nat, leCnt a b → [a, b].Sublist (tallyRows (trendingRows db)) →
      [a, b].Sublist ((tallyRows (trendingRows db)).insertionSort leCnt)) ∧
    get_trending_tags dbGoRust 10 = ["go", "rust"] := by
  refine ⟨tally_filter_noop db.threads, fun s => cntOf_tallyRows _ s, ?_, ?_, ?_, by decide⟩
  · simp only [get_trending_tags, List.length_map, List.length_take]
    exact Nat.min_le_left _ _
  · haveI : IsTotal (String × Nat) leCnt := ⟨fun a b => Nat.le_total b.2 a.2⟩
    haveI : IsTrans (String × Nat) leCnt := ⟨fun _ _ _ hab hbc => Nat.le_trans hbc hab⟩
    have hsorted : List.Pairwise leCnt
        ((tallyRows (trendingRows db)).insertionSort leCnt) :=
      List.sorted_insertionSort leCnt (tallyRows (trendingRows db))
    have hmemcnt : ∀ x ∈ (tallyRows (trendingRows db)).insertionSort leCnt,
        cntOf (tallyRows (trendingRows db)) x.1 = x.2 := by
      intro x hx
      exact cntOf_of_mem _ (keys_nodup_tally _) x.1 x.2
        ((List.mem_insertionSort leCnt).mp hx)
    have hP : List.Pairwise
        (fun a b : String × Nat =>
          cntOf (tallyRows (trendingRows db)) b.1 ≤ cntOf (tallyRows (trendingRows db)) a.1)
        ((tallyRows (trendingRows db)).insertionSort leCnt) := by
      refine List.Pairwise.imp_of_mem ?_ hsorted
      intro a b ha hb hle
      rw [hmemcnt a ha, hmemcnt b hb]
      exact hle
    have hTake := hP.sublist (List.take_sublist 10 _)
    show List.Pairwise _ ((((tallyRows (trendingRows db)).insertionSort leCnt).take 10).map
      fun x => x.1)
    rw [List.pairwise_map]
    exact hTake
  · intro a b hab hsub
    exact List.pair_sublist_insertionSort hab hsub

/-- C2 witness: on the two-thread example store, the tally pair
`[("go", 2), ("rust", 2)]` is a tie kept in scan order by the stable
sort, and the helper returns `["go", "rust"]`. -/
theorem C2_trending_tags_witness :
    leCnt ("go", 2) ("rust", 2) ∧
    [("go", 2), ("rust", 2)].Sublist (tallyRows (trendingRows dbGoRust)) ∧
    [("go", 2), ("rust", 2)].Sublist
      ((tallyRows (trendingRows dbGoRust)).insertionSort leCnt) ∧
    get_trending_tags dbGoRust 10 = ["go", "rust"] :=
  ⟨by decide, by decide,
   (C2_trending_tags dbGoRust).2.2.2.2.1 ("go", 2) ("rust", 2) (by decide) (by decide),
   (C2_trending_tags dbGoRust).2.2.2.2.2⟩

/-! ### Claims C5 and C6: voting -/

/-- C5: each of the four voting operations on an id absent from its
table leaves both tables unchanged and still redirects to the referrer,
or to the home page when the referrer is absent or empty. -/
theorem C5_vote_missing_id (db : DB) (tid cid : Nat) (ref : Option String)
    (ht : ∀ t ∈ db.threads, t.id ≠ tid) (hc : ∀ c ∈ db.comments, c.id ≠ cid) :
    upvote db tid ref = (Response.redirect (refOr ref), db) ∧
    downvote db tid ref = (Response.redirect (refOr ref), db) ∧
    comment_upvote db cid ref = (Response.redirect (refOr ref), db) ∧
    comment_downvote db cid ref = (Response.redirect (refOr ref), db) ∧
    refOr none = "/" ∧ refOr (some "") = "/" ∧ (∀ s, s ≠ "" → refOr (some s) = s) := by
  refine ⟨?_, ?_, ?_, ?_, rfl, rfl, fun s hs => if_neg hs⟩
  · simp only [upvote]
    rw [map_update_id Thread.id (fun t => { t with upvotes := t.upvotes + 1 }) tid db.threads ht]
  · simp only [downvote]
    rw [map_update_id Thread.id (fun t => { t with downvotes := t.downvotes + 1 }) tid db.threads ht]
  · simp only [comment_upvote]
    rw [map_update_id Comment.id (fun c => { c with upvotes := c.upvotes + 1 }) cid db.comments hc]
  · simp only [comment_downvote]
    rw [map_update_id Comment.id (fun c => { c with downvotes := c.downvotes + 1 }) cid db.comments hc]

/-- C5 witness: on the concrete two-thread two-comment store, voting on
the absent ids 42 and 43 is a pure redirect that changes nothing. -/
theorem C5_vote_missing_id_witness :
    (∀ t ∈ dbVote.threads, t.id ≠ 42) ∧ (∀ c ∈ dbVote.comments, c.id ≠ 43) ∧
    upvote dbVote 42 none = (Response.redirect (refOr none), dbVote) ∧
    comment_downvote dbVote 43 none = (Response.redirect (refOr none), dbVote) :=
  ⟨by decide, by decide,
   (C5_vote_missing_id dbVote 42 43 none (by decide) (by decide)).1,
   (C5_vote_missing_id dbVote 42 43 none (by decide) (by decide)).2.2.2.1⟩

/-- C6: each voting operation on an existing id increments exactly the
named counter of exactly the targeted row; every other field, every
other row and the entire other table are unchanged. -/
theorem C6_vote_existing_id (db : DB) (ref : Option String) (t : Thread) (c : Comment)
    (hnt : (db.threads.map Thread.id).Nodup) (hnc : (db.comments.map Comment.id).Nodup)
    (ht : t ∈ db.threads) (hc : c ∈ db.comments) :
    ((upvote db t.id ref).2.comments = db.comments ∧
      ∃ l1 l2, db.threads = l1 ++ t :: l2 ∧
        (upvote db t.id ref).2.threads = l1 ++ { t with upvotes := t.upvotes + 1 } :: l2) ∧
    ((downvote db t.id ref).2.comments = db.comments ∧
      ∃ l1 l2, db.threads = l1 ++ t :: l2 ∧
        (downvote db t.id ref).2.threads = l1 ++ { t with downvotes := t.downvotes + 1 } :: l2) ∧
    ((comment_upvote db c.id ref).2.threads = db.threads ∧
      ∃ l1 l2, db.comments = l1 ++ c :: l2 ∧
        (comment_upvote db c.id ref).2.comments = l1 ++ { c with upvotes := c.upvotes + 1 } :: l2) ∧
    ((comment_downvote db c.id ref).2.threads = db.threads ∧
      ∃ l1 l2, db.comments = l1 ++ c :: l2 ∧
        (comment_downvote db c.id ref).2.comments = l1 ++ { c with downvotes := c.downvotes + 1 } :: l2) := by
  refine ⟨⟨rfl, ?_⟩, ⟨rfl, ?_⟩, ⟨rfl, ?_⟩, ⟨rfl, ?_⟩⟩
  · obtain ⟨l1, l2, he, hm⟩ :=
      update_by_key Thread.id (fun x => { x with upvotes := x.upvotes + 1 }) db.threads t hnt ht
    exact ⟨l1, l2, he, hm⟩
  · obtain ⟨l1, l2, he, hm⟩ :=
      update_by_key Thread.id (fun x => { x with downvotes := x.downvotes + 1 }) db.threads t hnt ht
    exact ⟨l1, l2, he, hm⟩
  · obtain ⟨l1, l2, he, hm⟩ :=
      update_by_key Comment.id (fun x => { x with upvotes := x.upvotes + 1 }) db.comments c hnc hc
    exact ⟨l1, l2, he, hm⟩
  · obtain ⟨l1, l2, he, hm⟩ :=
      update_by_key Comment.id (fun x => { x with downvotes := x.downvotes + 1 }) db.comments c hnc hc
    exact ⟨l1, l2, he, hm⟩

/-- C6 witness: incrementing thread 1's upvotes and upvoting comment 1
on the concrete store touches only the targeted counter. -/
theorem C6_vote_existing_id_witness :
    (dbVote.threads.map Thread.id).Nodup ∧ (dbVote.comments.map Comment.id).Nodup ∧
    (∃ l1 l2, dbVote.threads = l1 ++ tVote1 :: l2 ∧
      (upvote dbVote tVote1.id none).2.threads =
        l1 ++ { tVote1 with upvotes := tVote1.upvotes + 1 } :: l2) ∧
    (comment_upvote dbVote cVote1.id none).2.threads = dbVote.threads :=
  ⟨by decide, by decide,
   (C6_vote_existing_id dbVote none tVote1 cVote1
     (by decide) (by decide) (by decide) (by decide)).1.2,
   (C6_vote_existing_id dbVote none tVote1 cVote1
     (by decide) (by decide) (by decide) (by decide)).2.2.1.1⟩

/-! ### `LIKE` pattern lemmas for claims C8, C9 and C10 -/

theorem likeMatch_pct (ps : List Char) (cs : List Char) :
    likeMatch ('%' :: ps) cs = anySuffix (likeMatch ps) cs := by
  rw [likeMatch.eq_def]
  exact rfl

theorem likeMatch_plain_cons (p : Char) (ps : List Char)
    (h1 : p ≠ '%') (h2 : p ≠ '_') (h3 : p ≠ '\\') (cs : List Char) :
    likeMatch (p :: ps) cs =
      (match cs with
       | [] => false
       | c :: cs2 => p = c && likeMatch ps cs2) := by
  cases cs with
  | nil =>
    rw [likeMatch.eq_def]
    simp [h1, h2, h3]
  | cons c cs2 =>
    rw [likeMatch.eq_def]
    simp [h1, h2, h3]

theorem likeMatch_pct_nil (cs : List Char) : likeMatch ['%'] cs = true := by
  rw [likeMatch_pct]
  induction cs with
  | nil => rfl
  | cons c cs ih =>
    show (likeMatch [] (c :: cs) || anySuffix (likeMatch []) cs) = true
    rw [show likeMatch [] (c :: cs) = false from rfl, ih]
    rfl

theorem likeMatch_all_pct (ps : List Char) (h : ∀ c ∈ ps, c = '%') :
    ∀ cs, likeMatch ('%' :: ps) cs = true := by
  induction ps with
  | nil => exact likeMatch_pct_nil
  | cons p ps ih =>
    have hp : p = '%' := h p (List.mem_cons_self p ps)
    subst hp
    have hin : ∀ s, likeMatch ('%' :: ps) s = true :=
      ih fun c hc => h c (List.mem_cons_of_mem _ hc)
    intro cs
    rw [likeMatch_pct]
    cases cs with
    | nil => exact hin []
    | cons c cs2 =>
      show (likeMatch ('%' :: ps) (c :: cs2) || anySuffix (likeMatch ('%' :: ps)) cs2) = true
      rw [hin]
      rfl

theorem likeMatch_lit_pct (lit : List Char)
    (hlit : ∀ c ∈ lit, c ≠ '%' ∧ c ≠ '_' ∧ c ≠ '\\') :
    ∀ cs, likeMatch (lit ++ ['%']) cs = leadsWith lit cs := by
  induction lit with
  | nil =>
    intro cs
    show likeMatch ['%'] cs = leadsWith [] cs
    rw [likeMatch_pct_nil]
    rfl
  | cons p lit ih =>
    intro cs
    obtain ⟨h1, h2, h3⟩ := hlit p (List.mem_cons_self p lit)
    have ih2 := ih fun c hc => hlit c (List.mem_cons_of_mem _ hc)
    rw [List.cons_append, likeMatch_plain_cons p (lit ++ ['%']) h1 h2 h3]
    cases cs with
    | nil => rfl
    | cons c cs2 =>
      show (p = c && likeMatch (lit ++ ['%']) cs2) = (p = c && leadsWith lit cs2)
      rw [ih2]

theorem likeMatch_pct_lit_pct (lit : List Char)
    (hlit : ∀ c ∈ lit, c ≠ '%' ∧ c ≠ '_' ∧ c ≠ '\\') :
    ∀ cs, likeMatch ('%' :: (lit ++ ['%'])) cs = occursIn lit cs := by
  intro cs
  rw [likeMatch_pct]
  induction cs with
  | nil =>
    show likeMatch (lit ++ ['%']) [] = occursIn lit []
    rw [likeMatch_lit_pct lit hlit]
    rfl
  | cons c cs2 ih =>
    show (likeMatch (lit ++ ['%']) (c :: cs2) || anySuffix (likeMatch (lit ++ ['%'])) cs2)
      = occursIn lit (c :: cs2)
    rw [likeMatch_lit_pct lit hlit, ih]
    rfl

theorem leadsWith_iff (needle : List Char) :
    ∀ hay, leadsWith needle hay = true ↔ ∃ post, hay = needle ++ post := by
  induction needle with
  | nil =>
    intro hay
    constructor
    · intro _
      exact ⟨hay, rfl⟩
    · intro _
      rfl
  | cons a as ih =>
    intro hay
    cases hay with
    | nil =>
      constructor
      · intro h
        exact Bool.noConfusion h
      · rintro ⟨post, h⟩
        rw [List.cons_append] at h
        exact List.noConfusion h
    | cons b bs =>
      show (a = b && leadsWith as bs) = true ↔ _
      rw [Bool.and_eq_true, decide_eq_true_eq, ih bs]
      constructor
      · rintro ⟨rfl, post, rfl⟩
        exact ⟨post, rfl⟩
      · rintro ⟨post, heq⟩
        rw [List.cons_append] at heq
        injection heq with hb hbs
        exact ⟨hb.symm, post, hbs⟩


theorem occursIn_iff (needle : List Char) :
    ∀ hay, occursIn needle hay = true ↔ ∃ pre post, hay = pre ++ needle ++ post := by
  intro hay
  induction hay with
  | nil =>
    show leadsWith needle [] = true ↔ _
    rw [leadsWith_iff]
    constructor
    · rintro ⟨post, h⟩
      exact ⟨[], post, by simpa using h⟩
    · rintro ⟨pre, post, h⟩
      have h2 := h.symm
      rw [List.append_assoc, List.append_eq_nil] at h2
      rw [List.append_eq_nil] at h2
      exact ⟨[], by simp [h2.2.1]⟩
  | cons c cs ih =>
    show (leadsWith needle (c :: cs) || occursIn needle cs) = true ↔ _
    rw [Bool.or_eq_true, leadsWith_iff, ih]
    constructor
    · rintro (⟨post, h⟩ | ⟨pre, post, h⟩)
      · exact ⟨[], post, by simpa using h⟩
      · exact ⟨c :: pre, post, by simp [h]⟩
    · rintro ⟨pre, post, h⟩
      cases pre with
      | nil =>
        exact Or.inl ⟨post, by simpa using h⟩
      | cons p pre2 =>
        right
        refine ⟨pre2, post, ?_⟩
        rw [List.cons_append, List.cons_append] at h
        injection h with hc hcs

/-! ### Lower-casing preserves non-wildcard characters -/

theorem toLower_eq_low (c w : Char) (hw : w.toNat < 97) (h : c.toLower = w) : c = w := by
  by_cases hc : c.toNat ≥ 65 ∧ c.toNat ≤ 90
  · exfalso
    have hv : Nat.isValidChar (c.toNat + 32) := Or.inl (by omega)
    have h1 : Char.toLower c = Char.ofNat (c.toNat + 32) := by
      simp [Char.toLower, hc]
    rw [h1] at h
    have h2 : (Char.ofNat (c.toNat + 32)).toNat = c.toNat + 32 := by
      rw [Char.ofNat, dif_pos hv]
      rfl
    have h3 : w.toNat = c.toNat + 32 := by
      rw [← h, h2]
    omega
  · have h1 : Char.toLower c = c := by
      simp [Char.toLower, hc]
    rw [h1] at h
    exact h

theorem lowerChars_plain (l : List Char)
    (h : ∀ ch ∈ l, ch ≠ '%' ∧ ch ≠ '_' ∧ ch ≠ '\\') :
    ∀ ch ∈ lowerChars l, ch ≠ '%' ∧ ch ≠ '_' ∧ ch ≠ '\\' := by
  intro ch hch
  rw [lowerChars, List.mem_map] at hch
  obtain ⟨c, hc, rfl⟩ := hch
  obtain ⟨k1, k2, k3⟩ := h c hc
  exact ⟨fun he => k1 (toLower_eq_low c '%' (by decide) he),
    fun he => k2 (toLower_eq_low c '_' (by decide) he),
    fun he => k3 (toLower_eq_low c '\\' (by decide) he)⟩

theorem ilike_pct_pattern (s tag : String)
    (hplain : ∀ ch ∈ tag.data, ch ≠ '%' ∧ ch ≠ '_' ∧ ch ≠ '\\') :
    ilike s ("%" ++ tag ++ "%") = containsCI s tag := by
  have hdata : ("%" ++ tag ++ "%").data = '%' :: (tag.data ++ ['%']) := by
    rw [String.data_append, String.data_append]
    rfl
  have hlow : lowerChars ('%' :: (tag.data ++ ['%'])) = '%' :: (lowerChars tag.data ++ ['%']) := by
    rw [lowerChars, List.map_cons, List.map_append]
    rfl
  rw [ilike, hdata, hlow,
    likeMatch_pct_lit_pct (lowerChars tag.data) (lowerChars_plain tag.data hplain)]
  rfl


/-! ### Claim C8: tag filter -/

/-- C8 (amended): for tag strings free of the `ILIKE` wildcard
characters `%`, `_` and `\`, the tag filter returns exactly the threads
whose tags field contains the tag as a case-insensitive literal
substring, ordered by descending id and paginated like the home listing;
`occursIn` is literal substring containment. -/
theorem C8_tag_filter_substring (db : DB) (tag : String) (p : Nat)
    (hplain : ∀ ch ∈ tag.data, ch ≠ '%' ∧ ch ≠ '_' ∧ ch ≠ '\\') :
    (∀ s : String, ilike s ("%" ++ tag ++ "%") = containsCI s tag) ∧
    (tag_filter db tag p).threads =
      ((sortByIdDesc (db.threads.filter fun t => containsCI t.tags tag)).drop
        ((p - 1) * 5)).take 5 ∧
    (tag_filter db tag p).total_pages =
      total_pages_of (db.threads.filter fun t => containsCI t.tags tag).length ∧
    (∀ needle hay : List Char,
      occursIn needle hay = true ↔ ∃ pre post, hay = pre ++ needle ++ post) := by
  have hil : ∀ s : String, ilike s ("%" ++ tag ++ "%") = containsCI s tag :=
    fun s => ilike_pct_pattern s tag hplain
  have hfilter : (db.threads.filter fun t => ilike t.tags ("%" ++ tag ++ "%"))
      = db.threads.filter fun t => containsCI t.tags tag :=
    List.filter_congr fun t _ => hil t.tags
  refine ⟨hil, ?_, ?_, fun needle hay => occursIn_iff needle hay⟩
  · show ((sortByIdDesc (db.threads.filter fun t =>
      ilike t.tags ("%" ++ tag ++ "%"))).drop ((p - 1) * 5)).take 5 = _
    rw [hfilter]
  · show total_pages_of (db.threads.filter fun t =>
      ilike t.tags ("%" ++ tag ++ "%")).length = _
    rw [hfilter]

/-- C8 witness: on the store with one thread tagged `"category"`,
filtering on the wildcard-free tag `"cat"` returns the thread — a
substring match, not an exact tag match. -/
theorem C8_tag_filter_substring_witness :
    (∀ ch ∈ "cat".data, ch ≠ '%' ∧ ch ≠ '_' ∧ ch ≠ '\\') ∧
    containsCI "category" "cat" = true ∧
    (tag_filter dbCat "cat" 1).threads =
      ((sortByIdDesc (dbCat.threads.filter fun t => containsCI t.tags "cat")).drop
        ((1 - 1) * 5)).take 5 ∧
    (tag_filter dbCat "cat" 1).threads = [mkThread 1 "category"] :=
  ⟨by decide, by decide, (C8_tag_filter_substring dbCat "cat" 1 (by decide)).2.1, by decide⟩

/-- C8 counterexample: the claim as stated fails for a tag containing
an `ILIKE` wildcard: filtering on `"_"` returns the thread tagged
`"abc"` even though `"_"` is not a substring of `"abc"`. -/
theorem C8_counterexample :
    (tag_filter dbTagAbc "_" 1).threads = [mkThread 1 "abc"] ∧
    containsCI "abc" "_" = false := by decide

/-! ### Claim C9: search -/

/-- C9 (amended): the search query is stripped first; for queries whose
stripped form is free of the `ILIKE` wildcard characters, search returns
exactly the threads where the stripped query occurs case-insensitively
in title, content or tags, paginated like the home listing; a query that
strips to the empty string matches every thread, giving the home
listing. -/
theorem C9_search_substring (db : DB) (q : String) (p : Nat)
    (hplain : ∀ ch ∈ (pyStrip q).data, ch ≠ '%' ∧ ch ≠ '_' ∧ ch ≠ '\\') :
    (search db q p).threads =
      ((sortByIdDesc (db.threads.filter fun t =>
        containsCI t.title (pyStrip q) || containsCI t.content (pyStrip q) ||
          containsCI t.tags (pyStrip q))).drop ((p - 1) * 5)).take 5 ∧
    (search db q p).total_pages =
      total_pages_of (db.threads.filter fun t =>
        containsCI t.title (pyStrip q) || containsCI t.content (pyStrip q) ||
          containsCI t.tags (pyStrip q)).length ∧
    (pyStrip q = "" → search db q p = index db p) := by
  have hil : ∀ s : String, ilike s ("%" ++ pyStrip q ++ "%") = containsCI s (pyStrip q) :=
    fun s => ilike_pct_pattern s (pyStrip q) hplain
  have hfilter : (db.threads.filter fun t =>
      ilike t.title ("%" ++ pyStrip q ++ "%") || ilike t.content ("%" ++ pyStrip q ++ "%") ||
        ilike t.tags ("%" ++ pyStrip q ++ "%"))
      = db.threads.filter fun t =>
        containsCI t.title (pyStrip q) || containsCI t.content (pyStrip q) ||
          containsCI t.tags (pyStrip q) :=
    List.filter_congr fun t _ => by rw [hil, hil, hil]
  refine ⟨?_, ?_, ?_⟩
  · show ((sortByIdDesc (db.threads.filter fun t =>
      ilike t.title ("%" ++ pyStrip q ++ "%") || ilike t.content ("%" ++ pyStrip q ++ "%") ||
        ilike t.tags ("%" ++ pyStrip q ++ "%"))).drop ((p - 1) * 5)).take 5 = _
    rw [hfilter]
  · show total_pages_of (db.threads.filter fun t =>
      ilike t.title ("%" ++ pyStrip q ++ "%") || ilike t.content ("%" ++ pyStrip q ++ "%") ||
        ilike t.tags ("%" ++ pyStrip q ++ "%")).length = _
    rw [hfilter]
  · intro hq
    have hall : ∀ s : String, ilike s ("%" ++ pyStrip q ++ "%") = true := by
      intro s
      rw [hq]
      show likeMatch (lowerChars ("%" ++ "" ++ "%").data) (lowerChars s.data) = true
      rw [show lowerChars ("%" ++ "" ++ "%").data = '%' :: ['%'] from by decide]
      exact likeMatch_all_pct ['%'] (by decide) _
    have hM : (db.threads.filter fun t =>
        ilike t.title ("%" ++ pyStrip q ++ "%") || ilike t.content ("%" ++ pyStrip q ++ "%") ||
          ilike t.tags ("%" ++ pyStrip q ++ "%")) = db.threads := by
      refine List.filter_eq_self.mpr fun t _ => ?_
      rw [hall, hall, hall]
      rfl
    show Listing.mk
        (((sortByIdDesc (db.threads.filter fun t =>
          ilike t.title ("%" ++ pyStrip q ++ "%") || ilike t.content ("%" ++ pyStrip q ++ "%") ||
            ilike t.tags ("%" ++ pyStrip q ++ "%"))).drop ((p - 1) * 5)).take 5)
        (get_popular_threads db 5) (get_trending_tags db 10) p
        (total_pages_of (db.threads.filter fun t =>
          ilike t.title ("%" ++ pyStrip q ++ "%") || ilike t.content ("%" ++ pyStrip q ++ "%") ||
            ilike t.tags ("%" ++ pyStrip q ++ "%")).length) = index db p
    rw [hM]
    rfl

/-- C9 witness: on the one-thread store, the wildcard-free query `"b"`
returns the thread (its content `"def"` does not match, its title
`"abc"` does), and a whitespace-only query strips to empty and yields
the home listing. -/
theorem C9_search_substring_witness :
    (∀ ch ∈ (pyStrip "b").data, ch ≠ '%' ∧ ch ≠ '_' ∧ ch ≠ '\\') ∧
    (search dbQ "b" 1).threads =
      ((sortByIdDesc (dbQ.threads.filter fun t =>
        containsCI t.title (pyStrip "b") || containsCI t.content (pyStrip "b") ||
          containsCI t.tags (pyStrip "b"))).drop ((1 - 1) * 5)).take 5 ∧
    pyStrip "   " = "" ∧
    search dbQ "   " 1 = index dbQ 1 :=
  ⟨by decide, (C9_search_substring dbQ "b" 1 (by decide)).1, by decide,
   (C9_search_substring dbQ "   " 1 (by decide)).2.2 (by decide)⟩

/-- C9 counterexample: the claim as stated fails both for a query
containing a wildcard (`"%"` returns the thread although `"%"` is not a
substring of any field) and for a query with surrounding whitespace
(`" b "` returns the thread although `" b "` is not a substring of any
field — the code strips the query first). -/
theorem C9_counterexample :
    ((search dbQ "%" 1).threads =
        [{ id := 1, title := "abc", content := "def", created_at := 0,
           upvotes := 0, downvotes := 0, tags := "ghi" }] ∧
      containsCI "abc" "%" = false ∧ containsCI "def" "%" = false ∧
      containsCI "ghi" "%" = false) ∧
    ((search dbQ " b " 1).threads =
        [{ id := 1, title := "abc", content := "def", created_at := 0,
           upvotes := 0, downvotes := 0, tags := "ghi" }] ∧
      containsCI "abc" " b " = false ∧ containsCI "def" " b " = false ∧
      containsCI "ghi" " b " = false) := by decide

/-! ### Claim C10: wildcard metacharacters -/

/-- C10: because tag and search strings are spliced into the `ILIKE`
pattern, `%` and `_` act as wildcards: searching or tag-filtering on
`"%"` returns every thread (the whole home listing), and `"a_c"`
matches any character between `a` and `c` while not being a literal
substring match. -/
theorem C10_wildcard_semantics (db : DB) (p : Nat) :
    search db "%" p = index db p ∧
    tag_filter db "%" p = index db p ∧
    ilike "abc" "%a_c%" = true ∧ ilike "aXc" "%a_c%" = true ∧
    ilike "ac" "%a_c%" = false ∧ containsCI "abc" "a_c" = false := by
  have hall3 : ∀ s : String, ilike s ("%" ++ "%" ++ "%") = true := by
    intro s
    show likeMatch (lowerChars ("%" ++ "%" ++ "%").data) (lowerChars s.data) = true
    rw [show lowerChars ("%" ++ "%" ++ "%").data = '%' :: ['%', '%'] from by decide]
    exact likeMatch_all_pct ['%', '%'] (by decide) _
  refine ⟨?_, ?_, by decide, by decide, by decide, by decide⟩
  · have hpp : "%" ++ pyStrip "%" ++ "%" = "%" ++ "%" ++ "%" := by decide
    have hM : (db.threads.filter fun t =>
        ilike t.title ("%" ++ pyStrip "%" ++ "%") || ilike t.content ("%" ++ pyStrip "%" ++ "%") ||
          ilike t.tags ("%" ++ pyStrip "%" ++ "%")) = db.threads := by
      refine List.filter_eq_self.mpr fun t _ => ?_
      rw [hpp, hall3, hall3, hall3]
      rfl
    show Listing.mk
        (((sortByIdDesc (db.threads.filter fun t =>
          ilike t.title ("%" ++ pyStrip "%" ++ "%") || ilike t.content ("%" ++ pyStrip "%" ++ "%") ||
            ilike t.tags ("%" ++ pyStrip "%" ++ "%"))).drop ((p - 1) * 5)).take 5)
        (get_popular_threads db 5) (get_trending_tags db 10) p
        (total_pages_of (db.threads.filter fun t =>
          ilike t.title ("%" ++ pyStrip "%" ++ "%") || ilike t.content ("%" ++ pyStrip "%" ++ "%") ||
            ilike t.tags ("%" ++ pyStrip "%" ++ "%")).length) = index db p
    rw [hM]
    rfl
  · have hM : (db.threads.filter fun t => ilike t.tags ("%" ++ "%" ++ "%")) = db.threads :=
      List.filter_eq_self.mpr fun t _ => hall3 t.tags
    show Listing.mk
        (((sortByIdDesc (db.threads.filter fun t =>
          ilike t.tags ("%" ++ "%" ++ "%"))).drop ((p - 1) * 5)).take 5)
        (get_popular_threads db 5) (get_trending_tags db 10) p
        (total_pages_of (db.threads.filter fun t =>
          ilike t.tags ("%" ++ "%" ++ "%")).length) = index db p
    rw [hM]
    rfl

/-! ### Claim C7: no server-side non-emptiness validation -/

/-- C7 counterexample: a POST with empty title and empty content
succeeds (0 words is within the limit) and inserts a row whose title
and content are both empty, contradicting the claim that successful
creations never insert empty fields. -/
theorem C7_counterexample :
    (new_thread db0 "" "" "" 0).1 = Response.redirect "/" ∧
    ((new_thread db0 "" "" "" 0).2.threads.map fun t => (t.title, t.content)) = [("", "")] := by
  decide

/-- C7 (amended): thread creation validates only the 500-word content
limit — creation succeeds exactly when the content is within the limit,
and the inserted row carries the submitted title and content verbatim,
empty or not; non-emptiness is not enforced by the handler. -/
theorem C7_no_emptiness_validation (db : DB) (title content tags : String) (now : Nat) :
    ((new_thread db title content tags now).1 = Response.redirect "/" ↔
      count_words content ≤ MAX_THREAD_WORDS) ∧
    (count_words content ≤ MAX_THREAD_WORDS →
      (new_thread db title content tags now).2.threads =
        db.threads ++ [{ id := db.nextThreadId, title := title, content := content,
                         created_at := now, upvotes := 0, downvotes := 0, tags := tags }]) := by
  constructor
  · constructor
    · intro h
      by_contra hgt
      simp only [new_thread] at h
      rw [if_pos (by omega)] at h
      exact Response.noConfusion h
    · intro h
      simp only [new_thread]
      rw [if_neg (by omega)]
  · intro h
    simp only [new_thread]
    rw [if_neg (by omega)]

/-- C7 witness: the empty-field creation is accepted and the row is
inserted verbatim. -/
theorem C7_no_emptiness_validation_witness :
    count_words "" ≤ MAX_THREAD_WORDS ∧
    (new_thread db0 "" "" "" 0).1 = Response.redirect "/" ∧
    (new_thread db0 "" "" "" 0).2.threads =
      db0.threads ++ [{ id := db0.nextThreadId, title := "", content := "",
                        created_at := 0, upvotes := 0, downvotes := 0, tags := "" }] :=
  ⟨by decide, (C7_no_emptiness_validation db0 "" "" "" 0).1.mpr (by decide),
   (C7_no_emptiness_validation db0 "" "" "" 0).2 (by decide)⟩

end Board
